import Mathlib

set_option maxHeartbeats 1000000

namespace RedacterRs

/-- Media type, modeled as the pair of its top-level type and subtype
(the `mime::Mime` values consumed by `src/redacters/mod.rs`). -/
structure Mime where
  type_ : String
  subtype : String
deriving DecidableEq, Repr

/-- The constant `mime::TEXT_PLAIN`. -/
def TEXT_PLAIN : Mime := ⟨"text", "plain"⟩

/-- The constant `mime::IMAGE_PNG`. -/
def IMAGE_PNG : Mime := ⟨"image", "png"⟩

/-- The constant `mime::APPLICATION_PDF`. -/
def APPLICATION_PDF : Mime := ⟨"application", "pdf"⟩

/-- The constant `mime::TEXT_CSV`. -/
def TEXT_CSV : Mime := ⟨"text", "csv"⟩

namespace Redacters

/-- Embeds `Redacters::is_mime_text` (src/redacters/mod.rs:126-140). -/
def is_mime_text (m : Mime) : Bool :=
  (m.type_ == "text" &&
    (m.subtype == "plain" || m.subtype == "html" || m.subtype == "xml" ||
      m.subtype == "css" || m.subtype == "x-yaml" || m.subtype == "yaml")) ||
  (m.type_ == "application" &&
    (m.subtype == "xml" || m.subtype == "json" ||
      m.subtype.toLower == "yaml" || m.subtype.toLower == "x-yaml"))

/-- Embeds `Redacters::is_mime_table` (src/redacters/mod.rs:142-144). -/
def is_mime_table (m : Mime) : Bool :=
  m.type_ == "text" && m.subtype == "csv"

/-- Embeds `Redacters::is_mime_image` (src/redacters/mod.rs:146-148). -/
def is_mime_image (m : Mime) : Bool :=
  m.type_ == "image"

/-- Embeds `Redacters::is_mime_pdf` (src/redacters/mod.rs:150-152). -/
def is_mime_pdf (m : Mime) : Bool :=
  decide (m = APPLICATION_PDF)

end Redacters

/-- Embeds `FileSystemRef` (src/file_systems/mod.rs:45-49); file sizes as Nat. -/
structure FileSystemRef where
  relative_path : String
  media_type : Option Mime
  file_size : Option Nat
deriving DecidableEq, Repr

/-- Embeds `RedactSupport`, a redacter's self-report for a file
(used by `create_redact_plan` in src/redacters/stream_redacter.rs). -/
inductive RedactSupport where
  | Supported
  | Unsupported
deriving DecidableEq, Repr

/-- A redacter backend, modeled by its `redact_support` probe: the only part of
the `Redacter` trait that `create_redact_plan` consults. -/
structure Redacter where
  redact_support : FileSystemRef → RedactSupport

/-- Embeds `StreamRedactPlan` (src/redacters/stream_redacter.rs:27-31). -/
structure StreamRedactPlan where
  apply_pdf_image_converter : Bool
  apply_ocr : Bool
  leave_data_table_as_text : Bool
deriving DecidableEq, Repr

/-- The plan value with no conversions, as initialized at
src/redacters/stream_redacter.rs:51-55. -/
def StreamRedactPlan.none_apply : StreamRedactPlan :=
  ⟨false, false, false⟩

/-- True when the probe of `r` on `ref` reports `Supported`
(the pushes at src/redacters/stream_redacter.rs:60-62 and analogues). -/
def supports (r : Redacter) (ref : FileSystemRef) : Bool :=
  match r.redact_support ref with
  | RedactSupport.Supported => true
  | RedactSupport.Unsupported => false

/-- The reprobe of each redacter with the MIME forced to `m`, keeping the rest
of the file ref (the `FileSystemRef { media_type: Some(m), ..file_ref.clone() }`
probes in src/redacters/stream_redacter.rs:71-76, 88-93, 105-110, 124-129). -/
def reprobe_filter (rs : List Redacter) (ref : FileSystemRef) (m : Mime) : List Redacter :=
  rs.filter fun r => supports r { ref with media_type := some m }

/-- Embeds `StreamRedacter::create_redact_plan`
(src/redacters/stream_redacter.rs:46-144). `pdfAvail` models
`self.file_converters.pdf_image_converter.is_some()` and `ocrAvail` models
`self.file_converters.ocr.is_some()`. Returns the plan together with the
supported redacters in configured order. -/
def create_redact_plan (pdfAvail ocrAvail : Bool) (redacters : List Redacter)
    (file_ref : FileSystemRef) : StreamRedactPlan × List Redacter :=
  let natural := redacters.filter fun r => supports r file_ref
  if !natural.isEmpty then
    (StreamRedactPlan.none_apply, natural)
  else
    match file_ref.media_type with
    | some m =>
      if Redacters.is_mime_table m then
        let hits := reprobe_filter redacters file_ref TEXT_PLAIN
        (⟨false, false, !hits.isEmpty⟩, hits)
      else if pdfAvail && Redacters.is_mime_pdf m then
        let hits := reprobe_filter redacters file_ref IMAGE_PNG
        if !hits.isEmpty then
          (⟨true, false, false⟩, hits)
        else if ocrAvail then
          let hits2 := reprobe_filter redacters file_ref TEXT_PLAIN
          (⟨!hits2.isEmpty, !hits2.isEmpty, false⟩, hits2)
        else
          (StreamRedactPlan.none_apply, [])
      else if ocrAvail && Redacters.is_mime_image m then
        let hits := reprobe_filter redacters file_ref TEXT_PLAIN
        (⟨false, !hits.isEmpty, false⟩, hits)
      else
        (StreamRedactPlan.none_apply, [])
    | none => (StreamRedactPlan.none_apply, [])

/-- The plan-construction rule exactly as the claim states it: natural
supporters win with no conversions; otherwise table inputs are reprobed as
text/plain, PDF inputs are reprobed as image/png (falling back, if nothing hits
and an OCR engine exists, to text/plain), and image inputs are reprobed as
text/plain — with no requirement that a PDF-to-image converter be available for
the PDF reprobe nor that an OCR engine be available for the image reprobe. -/
def claim_plan_c2 (ocrAvail : Bool) (redacters : List Redacter)
    (file_ref : FileSystemRef) : StreamRedactPlan × List Redacter :=
  let natural := redacters.filter fun r => supports r file_ref
  if !natural.isEmpty then
    (StreamRedactPlan.none_apply, natural)
  else
    match file_ref.media_type with
    | some m =>
      if Redacters.is_mime_table m then
        let hits := reprobe_filter redacters file_ref TEXT_PLAIN
        (⟨false, false, !hits.isEmpty⟩, hits)
      else if Redacters.is_mime_pdf m then
        let hits := reprobe_filter redacters file_ref IMAGE_PNG
        if !hits.isEmpty then
          (⟨true, false, false⟩, hits)
        else if ocrAvail then
          let hits2 := reprobe_filter redacters file_ref TEXT_PLAIN
          (⟨!hits2.isEmpty, !hits2.isEmpty, false⟩, hits2)
        else
          (StreamRedactPlan.none_apply, [])
      else if Redacters.is_mime_image m then
        let hits := reprobe_filter redacters file_ref TEXT_PLAIN
        (⟨false, !hits.isEmpty, false⟩, hits)
      else
        (StreamRedactPlan.none_apply, [])
    | none => (StreamRedactPlan.none_apply, [])

/-- The plan-construction rule as amended: the PDF reprobe additionally
requires the PDF-to-image converter to be available, and the image reprobe
additionally requires an OCR engine to be available. Written by dispatching on
the media kind first, with the availability provisos inside each branch. -/
def amended_plan_c2 (pdfAvail ocrAvail : Bool) (redacters : List Redacter)
    (file_ref : FileSystemRef) : StreamRedactPlan × List Redacter :=
  let natural := redacters.filter fun r => supports r file_ref
  if !natural.isEmpty then
    (StreamRedactPlan.none_apply, natural)
  else
    match file_ref.media_type with
    | some m =>
      if Redacters.is_mime_table m then
        let hits := reprobe_filter redacters file_ref TEXT_PLAIN
        (⟨false, false, !hits.isEmpty⟩, hits)
      else if Redacters.is_mime_pdf m then
        if pdfAvail then
          let hits := reprobe_filter redacters file_ref IMAGE_PNG
          if !hits.isEmpty then
            (⟨true, false, false⟩, hits)
          else if ocrAvail then
            let hits2 := reprobe_filter redacters file_ref TEXT_PLAIN
            (⟨!hits2.isEmpty, !hits2.isEmpty, false⟩, hits2)
          else
            (StreamRedactPlan.none_apply, [])
        else
          (StreamRedactPlan.none_apply, [])
      else if Redacters.is_mime_image m then
        if ocrAvail then
          let hits := reprobe_filter redacters file_ref TEXT_PLAIN
          (⟨false, !hits.isEmpty, false⟩, hits)
        else
          (StreamRedactPlan.none_apply, [])
      else
        (StreamRedactPlan.none_apply, [])
    | none => (StreamRedactPlan.none_apply, [])

/-- A redacter that supports exactly image/png payloads. -/
def png_only_redacter : Redacter :=
  ⟨fun ref =>
    if ref.media_type = some IMAGE_PNG then RedactSupport.Supported
    else RedactSupport.Unsupported⟩

/-- A PDF file ref as probed by the planner. -/
def pdf_file_ref : FileSystemRef :=
  ⟨"doc.pdf", some APPLICATION_PDF, none⟩

/-- Embeds `MsPresidioAnalyzedItem` (src/redacters/ms_presidio.rs:34-39); the
Rust field `end` is called `end_` here because `end` is reserved in Lean. -/
structure MsPresidioAnalyzedItem where
  entity_type : String
  start : Option Nat
  end_ : Option Nat
deriving DecidableEq, Repr

/-- Embeds `MsPresidioRedacter::DISALLOW_ENTITY_TYPES`
(src/redacters/ms_presidio.rs:44). -/
def DISALLOW_ENTITY_TYPES : List String :=
  ["US_DRIVER_LICENSE"]

/-- One step of the masking fold in `redact_text_file`
(src/redacters/ms_presidio.rs:111-125). Text is modeled as a list of code
units; Rust slices `acc[..start]`, `acc[end..]` become take/drop. -/
def apply_analyzed_item (acc : List Char) (entity : MsPresidioAnalyzedItem) : List Char :=
  match entity.start, entity.end_ with
  | some s, some e => acc.take s ++ List.replicate (e - s) 'X' ++ acc.drop e
  | some s, none => acc.take s ++ List.replicate (acc.length - s) 'X'
  | none, some e => List.replicate e 'X' ++ acc.drop e
  | none, none => acc

/-- Embeds the masking part of `MsPresidioRedacter::redact_text_file`
(src/redacters/ms_presidio.rs:108-125): deny-listed entity types are filtered
out, then every remaining span is replaced by a run of `X`. -/
def redact_text_file (text_content : List Char)
    (response_items : List MsPresidioAnalyzedItem) : List Char :=
  (response_items.filter fun item =>
      !DISALLOW_ENTITY_TYPES.contains item.entity_type).foldl
    apply_analyzed_item text_content

/-- Validity of a span against the text length: the offsets that Rust string
slicing accepts without panicking (in-range, start before end). -/
def item_valid (len : Nat) (it : MsPresidioAnalyzedItem) : Bool :=
  match it.start, it.end_ with
  | some s, some e => decide (s ≤ e) && decide (e ≤ len)
  | some s, none => decide (s ≤ len)
  | none, some e => decide (e ≤ len)
  | none, none => true

/-- Whether position `i` of a text of length `len` lies in the span masked by
the item. -/
def masked_by (len : Nat) (it : MsPresidioAnalyzedItem) (i : Nat) : Bool :=
  match it.start, it.end_ with
  | some s, some e => decide (s ≤ i) && decide (i < e)
  | some s, none => decide (s ≤ i) && decide (i < len)
  | none, some e => decide (i < e)
  | none, none => false

/-- Embeds `DlpRequestLimit` (src/common_types.rs:24-28); the `per` duration is
carried as its millisecond count, matching every use via `per.as_millis()`. -/
structure DlpRequestLimit where
  value : Nat
  per_ms : Nat
deriving DecidableEq, Repr

/-- Embeds `DlpRequestLimit::to_rate_limit_in_ms` (src/common_types.rs:41-43):
integer division of the period in ms by the operation count. -/
def to_rate_limit_in_ms (l : DlpRequestLimit) : Nat :=
  l.per_ms / l.value

/-- Embeds `DlpRequestLimit::to_rate_limit_capacity` (src/common_types.rs:45-47):
integer division of the period in ms by the refill interval. -/
def to_rate_limit_capacity (l : DlpRequestLimit) : Nat :=
  l.per_ms / to_rate_limit_in_ms l

/-- The arguments handed to `RedacterThrottler::new` by `to_throttling_counter`:
the token capacity and the per-token refill interval in milliseconds. -/
structure RedacterThrottlerCtorArgs where
  capacity : Nat
  duration_ms : Nat
deriving DecidableEq, Repr

/-- Embeds `DlpRequestLimit::to_throttling_counter` (src/common_types.rs:49-51). -/
def to_throttling_counter (l : DlpRequestLimit) : RedacterThrottlerCtorArgs :=
  ⟨to_rate_limit_capacity l, to_rate_limit_in_ms l⟩

/-- Embeds `PdfPageInfo` (src/file_converters/pdf.rs): the preserved page
dimensions plus the rendered page image, the latter abstracted to a handle. -/
structure PdfPageInfo where
  width : Nat
  height : Nat
  page_as_images : Nat
deriving DecidableEq, Repr

/-- Embeds `PdfInfo` (src/file_converters/pdf.rs). -/
structure PdfInfo where
  pages : List PdfPageInfo
deriving DecidableEq, Repr

/-- Embeds `PdfDocument::pages_mut().create_page_at_start` as used by
`images_to_pdf`: the new page is inserted at the front of the document. -/
def create_page_at_start (doc : List PdfPageInfo) (p : PdfPageInfo) : List PdfPageInfo :=
  p :: doc

/-- Embeds `PdfImageConverter::images_to_pdf`
(src/file_converters/pdf_image_converter.rs:66-85): starting from an empty
document, for each source page a page sized to that page's preserved width and
height is created at the START of the document and receives that page's image. -/
def images_to_pdf (pdf_info : PdfInfo) : List PdfPageInfo :=
  pdf_info.pages.foldl
    (fun doc src => create_page_at_start doc ⟨src.width, src.height, src.page_as_images⟩)
    []

/-- Embeds `FileMatcherResult` (src/file_tools/file_matcher.rs). -/
inductive FileMatcherResult where
  | Matched
  | SkippedDueToSize
  | SkippedDueToName
deriving DecidableEq, Repr

/-- Embeds `FileMatcher` (src/file_tools/file_matcher.rs); the compiled glob of
the globset crate is abstracted to its match predicate on the relative path. -/
structure FileMatcher where
  filename_matcher : Option (String → Bool)
  max_size_limit : Option Nat

/-- Embeds `FileMatcher::matches` (src/file_tools/file_matcher.rs): the size
check precedes the name check, and an absent size disables the size check. -/
def FileMatcher.matches (m : FileMatcher) (file_ref : FileSystemRef) : FileMatcherResult :=
  match m.max_size_limit, file_ref.file_size with
  | some max_size, some file_size =>
    if file_size > max_size then FileMatcherResult.SkippedDueToSize
    else match m.filename_matcher with
      | some g =>
        if !g file_ref.relative_path then FileMatcherResult.SkippedDueToName
        else FileMatcherResult.Matched
      | none => FileMatcherResult.Matched
  | _, _ =>
    match m.filename_matcher with
    | some g =>
      if !g file_ref.relative_path then FileMatcherResult.SkippedDueToName
      else FileMatcherResult.Matched
    | none => FileMatcherResult.Matched

/-- The matcher acceptance test of the listing loop
(src/file_systems/local.rs:62-65): `file_matcher.iter().all(matches Matched)`. -/
def matcher_ok (fm : Option FileMatcher) (ref : FileSystemRef) : Bool :=
  match fm with
  | none => true
  | some m => decide (m.matches ref = FileMatcherResult.Matched)

/-- A directory tree as walked by `list_files_recursive`: file entries carry
the `FileSystemRef` the walk builds for them (relative path, guessed MIME,
size), directory entries carry their children in iteration order. -/
inductive FsTree where
  | file (ref : FileSystemRef)
  | dir (entries : List FsTree)
deriving Repr

/-- Embeds `ListFilesResult` (src/file_systems/mod.rs:52-55). -/
structure ListFilesResult where
  files : List FileSystemRef
  skipped : Nat
deriving Repr

/-- The break test at the end of each loop iteration
(src/file_systems/local.rs:83-87): stop once the collected files reach the cap. -/
def breakCond (limit : Option Nat) (files : List FileSystemRef) : Bool :=
  match limit with
  | some l => decide (files.length ≥ l)
  | none => false

/-- The body of the `while let` loop of `LocalFileSystem::list_files_recursive`
(src/file_systems/local.rs:46-88), carrying the `files` and `skipped`
accumulators. A file entry is pushed or counted skipped by the matcher; a
directory entry recurses with the limit reduced by the files collected so far
(the nested call inlines the `max_files_limit == 0` early return of
src/file_systems/local.rs:42-44); after every entry the loop breaks once
`files.len()` reaches the limit. -/
def list_files_go (fm : Option FileMatcher) (limit : Option Nat) :
    List FsTree → List FileSystemRef → Nat → List FileSystemRef × Nat
  | [], files, skipped => (files, skipped)
  | FsTree.file ref :: rest, files, skipped =>
    let step :=
      if matcher_ok fm ref then (files ++ [ref], skipped) else (files, skipped + 1)
    if breakCond limit step.1 then step
    else list_files_go fm limit rest step.1 step.2
  | FsTree.dir entries :: rest, files, skipped =>
    let subLimit := limit.map fun v => v - files.length
    let sub :=
      if subLimit = some 0 then ([], 0)
      else list_files_go fm subLimit entries [] 0
    let step := (files ++ sub.1, skipped + sub.2)
    if breakCond limit step.1 then step
    else list_files_go fm limit rest step.1 step.2
termination_by entries _ _ => sizeOf entries
decreasing_by
  all_goals simp_wf
  all_goals omega

/-- Embeds `LocalFileSystem::list_files_recursive`
(src/file_systems/local.rs:35-90): the `max_files_limit == 0` early return
followed by the entry loop. -/
def list_files_recursive (fm : Option FileMatcher) (limit : Option Nat)
    (entries : List FsTree) : ListFilesResult :=
  if limit = some 0 then ⟨[], 0⟩
  else
    let r := list_files_go fm limit entries [] 0
    ⟨r.1, r.2⟩

/-- The refs of the tree accepted by the matcher, in walk order. -/
def accepted_refs (fm : Option FileMatcher) : List FsTree → List FileSystemRef
  | [] => []
  | FsTree.file ref :: rest =>
    (if matcher_ok fm ref then [ref] else []) ++ accepted_refs fm rest
  | FsTree.dir entries :: rest =>
    accepted_refs fm entries ++ accepted_refs fm rest
termination_by l => sizeOf l
decreasing_by
  all_goals simp_wf
  all_goals omega

/-- The number of refs of the tree rejected by the matcher. -/
def rejected_count (fm : Option FileMatcher) : List FsTree → Nat
  | [] => 0
  | FsTree.file ref :: rest =>
    (if matcher_ok fm ref then 0 else 1) + rejected_count fm rest
  | FsTree.dir entries :: rest =>
    rejected_count fm entries + rejected_count fm rest
termination_by l => sizeOf l
decreasing_by
  all_goals simp_wf
  all_goals omega

/-- An RGB pixel buffer (the image crate's `RgbImage`): dimensions plus the
pixel contents as a function from coordinates to a pixel value, with 0 standing
for black `Rgb([0, 0, 0])`. -/
structure RgbImage where
  width : Nat
  height : Nat
  data : Nat × Nat → Nat

/-- The image crate's `put_pixel`: overwrite one coordinate. -/
def put_pixel (img : RgbImage) (x y : Nat) (c : Nat) : RgbImage :=
  { img with data := fun p => if p = (x, y) then c else img.data p }

/-- The pixel ranges a `TextImageCoords` rectangle expands to. The source
computes them as `(x1 - x1*approx) as u32 .. (x2 + x2*approx) as u32` (and
likewise for y) over f32 coordinates (src/redacters/simple_image_redacter.rs:
30-36); the float expansion and cast are abstracted by quantifying over the
resulting u32 bounds, which covers every coordinate value and every
approximation factor. -/
structure PixelRect where
  x_lo : Nat
  x_hi : Nat
  y_lo : Nat
  y_hi : Nat
deriving DecidableEq, Repr

/-- The coordinates painted for one rectangle: every `(x, y)` of the expanded
ranges, clamped by `x.min(width - 1)` and `y.min(height - 1)`
(src/redacters/simple_image_redacter.rs:37-39). -/
def paint_targets (w h : Nat) (r : PixelRect) : List (Nat × Nat) :=
  (List.range' r.x_lo (r.x_hi - r.x_lo)).flatMap fun x =>
    (List.range' r.y_lo (r.y_hi - r.y_lo)).map fun y =>
      (Nat.min x (w - 1), Nat.min y (h - 1))

/-- The two nested pixel loops for a single rectangle
(src/redacters/simple_image_redacter.rs:31-41): paint each clamped target
black. -/
def paint_rect (im : RgbImage) (r : PixelRect) : RgbImage :=
  (paint_targets im.width im.height r).foldl
    (fun im2 p => put_pixel im2 p.1 p.2 0) im

/-- Embeds `redact_rgba_image_at_coords`
(src/redacters/simple_image_redacter.rs:25-43): paint every clamped target of
every rectangle black. -/
def redact_rgba_image_at_coords (img : RgbImage) (pii_coords : List PixelRect) : RgbImage :=
  pii_coords.foldl paint_rect img

/-- Whether `image::ImageFormat::from_mime_type` yields a raster format for the
MIME; the format list is the image crate's. -/
def image_format_supported (m : Mime) : Bool :=
  m.type_ == "image" &&
    (m.subtype == "png" || m.subtype == "jpeg" || m.subtype == "gif" ||
      m.subtype == "webp" || m.subtype == "tiff" || m.subtype == "bmp" ||
      m.subtype == "x-icon" || m.subtype == "avif" || m.subtype == "x-exr" ||
      m.subtype == "x-portable-anymap" || m.subtype == "x-targa" ||
      m.subtype == "x-tga" || m.subtype == "vnd.radiance" || m.subtype == "x-qoi")

/-- Error taxonomy, collapsed to the variants the embedded fragments produce. -/
inductive AppError where
  | SystemError
  | RedactionFailed
  | IoError (code : Nat)
deriving DecidableEq, Repr

/-- Embeds `redact_image_at_coords` (src/redacters/simple_image_redacter.rs:
8-23): fail unless the MIME maps to a known raster format, else decode, paint
the rectangles and re-encode. Encoded bytes are identified with the decoded
pixel buffer, and the rectangle expansion is pre-applied in `pii_coords`. -/
def redact_image_at_coords (mime : Mime) (img : RgbImage)
    (pii_coords : List PixelRect) : Except AppError RgbImage :=
  if image_format_supported mime then
    Except.ok (redact_rgba_image_at_coords img pii_coords)
  else
    Except.error AppError.SystemError

/-- Embeds `RedacterDataItemContent` (src/redacters/mod.rs); image bytes are
identified with the decoded pixel buffer, PDF bytes abstracted to a handle. -/
inductive RedacterDataItemContent where
  | Value (s : List Char)
  | Table (headers : List String) (rows : List (List String))
  | Image (mime_type : Mime) (data : RgbImage)
  | Pdf (data : Nat)

/-- Embeds `RedacterDataItem` (src/redacters/mod.rs). -/
structure RedacterDataItem where
  content : RedacterDataItemContent
  file_ref : FileSystemRef

/-- Embeds `OpenAiLlmRedacter::redact_image_file` in coordinate mode
(src/redacters/open_ai_llm.rs:190-313). `resize` stands for the image crate's
`DynamicImage::resize(1024, 1024, Gaussian)`; `llm_coords` stands for the
rectangle ranges obtained from the model's `text_coords` answer expanded with
approximation factor 0.25, as `redact_image_at_coords(.., 0.25)` computes them.
The returned item keeps the input's file_ref, keeps the MIME, and carries the
coordinate-redacted resized image. -/
def redact_image_file (resize : RgbImage → RgbImage) (llm_coords : List PixelRect)
    (input : RedacterDataItem) : Except AppError RedacterDataItem :=
  match input.content with
  | RedacterDataItemContent.Image mime_type data =>
    if image_format_supported mime_type then
      let resized := resize data
      match redact_image_at_coords mime_type resized llm_coords with
      | Except.ok redacted =>
        Except.ok
          { file_ref := input.file_ref,
            content := RedacterDataItemContent.Image mime_type redacted }
      | Except.error e => Except.error e
    else
      Except.error AppError.SystemError
  | _ => Except.error AppError.SystemError

/-- Embeds `TransferFileResult` (src/commands/copy_command.rs:238-241). -/
inductive TransferFileResult where
  | Copied
  | Skipped
deriving DecidableEq, Repr

/-- Which stream `redact_upload_file` hands to `destination_fs.upload`: the
stream returned by the stream redacter, or the unmodified source reader. -/
inductive UploadKind where
  | redactedStream
  | sourceStream
deriving DecidableEq, Repr

/-- Embeds the decision structure of `redact_upload_file`
(src/commands/copy_command.rs:343-460). `supportedNonempty` is the emptiness
test on the plan's supported redacters; `redactResult` is the outcome of
`stream_redacter.redact_stream`, abstracted to its `number_of_redactions` on
success; `allow` is `redacter_base_options.allow_unsupported_copies`. Returns
the per-file result together with what was uploaded, if anything. -/
def redact_upload_file (supportedNonempty : Bool) (redactResult : Except Unit Nat)
    (allow : Bool) : TransferFileResult × Option UploadKind :=
  if supportedNonempty then
    match redactResult with
    | Except.ok n =>
      if n > 0 || allow then (TransferFileResult.Copied, some UploadKind.redactedStream)
      else (TransferFileResult.Skipped, none)
    | Except.error _ => (TransferFileResult.Skipped, none)
  else if allow then (TransferFileResult.Copied, some UploadKind.sourceStream)
  else (TransferFileResult.Skipped, none)

/-- The per-file environment seen by `transfer_and_redact_file`
(src/commands/copy_command.rs:244-340): whether the download fails (a fatal
`?`-propagated error), whether the matcher accepts the file, whether the plan's
supported set is non-empty, the stream redacter's outcome, and whether an
attempted upload fails (also fatal). -/
structure FileProcSpec where
  download_error : Option Nat
  matched : Bool
  supported_nonempty : Bool
  redact_result : Except Unit Nat
  upload_error : Option Nat

/-- Embeds `transfer_and_redact_file` (src/commands/copy_command.rs:244-340):
download (fatal on error), matcher gate (skip without redaction), then either
the redacting branch `redact_upload_file` or the plain upload branch. Upload
errors surface where the branch performs an upload. -/
def transfer_and_redact_file (allow redactersConfigured : Bool) (f : FileProcSpec) :
    Except Nat (TransferFileResult × Option UploadKind) :=
  match f.download_error with
  | some e => Except.error e
  | none =>
    if !f.matched then Except.ok (TransferFileResult.Skipped, none)
    else if redactersConfigured then
      let r := redact_upload_file f.supported_nonempty f.redact_result allow
      match r.2, f.upload_error with
      | some _, some e => Except.error e
      | _, _ => Except.ok r
    else
      match f.upload_error with
      | some e => Except.error e
      | none => Except.ok (TransferFileResult.Copied, some UploadKind.sourceStream)

/-- The accumulator loop of `command_copy` over the listed source files
(src/commands/copy_command.rs:125-142): each file's result bumps the copied or
the skipped counter; a fatal error aborts the invocation through `?`. The
uploads performed so far are carried for observation. -/
def command_copy_loop_aux (allow redactersConfigured : Bool)
    (copied skipped : Nat) (uploads : List UploadKind) :
    List FileProcSpec → Except Nat (Nat × Nat × List UploadKind)
  | [] => Except.ok (copied, skipped, uploads)
  | f :: rest =>
    match transfer_and_redact_file allow redactersConfigured f with
    | Except.error e => Except.error e
    | Except.ok (TransferFileResult.Copied, up) =>
      command_copy_loop_aux allow redactersConfigured (copied + 1) skipped
        (uploads ++ up.toList) rest
    | Except.ok (TransferFileResult.Skipped, up) =>
      command_copy_loop_aux allow redactersConfigured copied (skipped + 1)
        (uploads ++ up.toList) rest

/-- The copy loop started with zero counters, as `command_copy` does. -/
def command_copy_loop (allow redactersConfigured : Bool) (files : List FileProcSpec) :
    Except Nat (Nat × Nat × List UploadKind) :=
  command_copy_loop_aux allow redactersConfigured 0 0 [] files

/-- The observable events of one file's redaction, in order. -/
inductive CopyEvent where
  | throttlerUpdate
  | throttlerSleep
  | backendCall (index : Nat)
deriving DecidableEq, Repr

/-- The backend invocations `redact_stream` performs, in order
(src/redacters/stream_redacter.rs:160-237): for each supported redacter, the
PDF-to-images path calls the backend once per page (with or without OCR), the
OCR path calls it once when the image format is supported, and the direct path
calls it once. No throttler event occurs anywhere in this loop. -/
def redact_stream_events (plan : StreamRedactPlan) (pdfAvail ocrAvail ocrFormatOk : Bool)
    (numPages numRedacters : Nat) : List CopyEvent :=
  (List.range numRedacters).flatMap fun i =>
    if plan.apply_pdf_image_converter then
      if pdfAvail && !plan.apply_ocr then
        (List.range numPages).map fun _ => CopyEvent.backendCall i
      else if pdfAvail && ocrAvail then
        (List.range numPages).map fun _ => CopyEvent.backendCall i
      else []
    else if plan.apply_ocr then
      if ocrAvail && ocrFormatOk then [CopyEvent.backendCall i] else []
    else [CopyEvent.backendCall i]

/-- The event trace of `redact_upload_file` up to the completion of
`redact_stream` (src/commands/copy_command.rs:370-395): when the supported set
is non-empty, first the single throttler gate — `update(now)` and a sleep when
`delay()` is positive — and then the backend invocations of `redact_stream`.
With an empty supported set no backend is ever invoked. -/
def redact_upload_throttle_trace (throttlerConfigured delayPos : Bool)
    (plan : StreamRedactPlan) (pdfAvail ocrAvail ocrFormatOk : Bool)
    (numPages numRedacters : Nat) : List CopyEvent :=
  if numRedacters ≠ 0 then
    (if throttlerConfigured then
      CopyEvent.throttlerUpdate ::
        (if delayPos then [CopyEvent.throttlerSleep] else [])
    else []) ++
      redact_stream_events plan pdfAvail ocrAvail ocrFormatOk numPages numRedacters
  else []

/-- Scan deciding the property the claim asserts of a trace: between any two
backend invocations there is a throttler update. `armed` records that a
backend call has occurred since the last update. -/
def gated_scan (armed : Bool) : List CopyEvent → Bool
  | [] => true
  | CopyEvent.backendCall _ :: rest => if armed then false else gated_scan true rest
  | CopyEvent.throttlerUpdate :: rest => gated_scan false rest
  | CopyEvent.throttlerSleep :: rest => gated_scan armed rest

/-- No two consecutive backend invocations without a throttler update between
them. -/
def no_ungated_consecutive_backend_calls (tr : List CopyEvent) : Bool :=
  gated_scan false tr

/-- A one-by-one pixel image with a non-black pixel. -/
def cex_img : RgbImage :=
  ⟨1, 1, fun _ => 1⟩

/-- A rectangle covering that pixel. -/
def cex_rects : List PixelRect :=
  [⟨0, 1, 0, 1⟩]

/-- A shrink-to-fit stand-in for `DynamicImage::resize(1024, 1024, ..)`. -/
def cex_resize : RgbImage → RgbImage :=
  fun im => ⟨Nat.min im.width 1024, Nat.min im.height 1024, im.data⟩

/-- A 2048 by 100 pixel image, wider than the 1024-pixel cap. -/
def cex_big_img : RgbImage :=
  ⟨2048, 100, fun _ => 1⟩

/-- A PNG file ref. -/
def cex_png_ref : FileSystemRef :=
  ⟨"img.png", some IMAGE_PNG, none⟩

/-- A file whose redaction pipeline fails. -/
def cex_err_file : FileProcSpec :=
  ⟨none, true, true, Except.error (), none⟩

/-- A file whose redaction pipeline succeeds with one redaction. -/
def cex_ok_file : FileProcSpec :=
  ⟨none, true, true, Except.ok 1, none⟩

/-- C1. The copy coordinator, once the stream redacter has produced a result
for a file whose supported set is non-empty, uploads the redacted stream iff
`number_of_redactions > 0` or `allow_unsupported_copies`; with zero redactions
and the flag off, the file's result is Skipped and nothing is uploaded
(src/commands/copy_command.rs:388-428). -/
theorem copy_commits_iff_redactions_or_allowed
    (redactResult : Except Unit Nat) (n : Nat) (allow : Bool)
    (h : redactResult = Except.ok n) :
    ((redact_upload_file true redactResult allow).2 = some UploadKind.redactedStream
      ↔ (0 < n ∨ allow = true))
    ∧ (n = 0 → allow = false →
        redact_upload_file true redactResult allow =
          (TransferFileResult.Skipped, none)) := by
  subst h
  constructor
  · by_cases h0 : 0 < n <;> cases allow <;>
      simp [redact_upload_file, h0]
  · intro hn ha
    subst hn; subst ha
    simp [redact_upload_file]

/-- Witness for C1 at a concrete zero-redaction input. -/
theorem copy_commits_iff_redactions_or_allowed_witness :
    ((redact_upload_file true (Except.ok 0) false).2 = some UploadKind.redactedStream
      ↔ (0 < 0 ∨ false = true))
    ∧ (0 = 0 → false = false →
        redact_upload_file true (Except.ok 0) false =
          (TransferFileResult.Skipped, none)) :=
  copy_commits_iff_redactions_or_allowed (Except.ok 0) 0 false rfl

/-- C5, counterexample. For the rate limit `700rps` (max_operations 700,
period 1000 ms) the throttler is constructed with capacity
`1000 / (1000 / 700) = 1000`, not the configured 700: the claim's
`capacity = max_operations` fails on `to_rate_limit_capacity`
(src/common_types.rs:45-47). -/
theorem throttler_capacity_counterexample :
    (to_throttling_counter ⟨700, 1000⟩).capacity = 1000 ∧
      (to_throttling_counter ⟨700, 1000⟩).capacity ≠ 700 ∧
      (to_throttling_counter ⟨700, 1000⟩).duration_ms = 1 := by
  decide

/-- C5, amended. The throttler is constructed with refill interval
`P_ms / N` milliseconds (integer division) and capacity `P_ms / (P_ms / N)`;
whenever `N` divides `P_ms` the capacity equals the configured `N`
(src/common_types.rs:41-51). -/
theorem throttler_construction_divisible (N P : Nat)
    (h1 : 0 < N) (h2 : N ∣ P) (h3 : 0 < P) :
    (to_throttling_counter ⟨N, P⟩).capacity = N ∧
      (to_throttling_counter ⟨N, P⟩).duration_ms = P / N := by
  refine ⟨?_, rfl⟩
  have hP : P ≠ 0 := by omega
  simpa [to_throttling_counter, to_rate_limit_capacity, to_rate_limit_in_ms] using
    Nat.div_div_self h2 hP

/-- Witness for the amended C5 at the rate limit `5rps`. -/
theorem throttler_construction_divisible_witness :
    0 < 5 ∧ (5 : Nat) ∣ 1000 ∧ 0 < 1000 ∧
      ((to_throttling_counter ⟨5, 1000⟩).capacity = 5 ∧
        (to_throttling_counter ⟨5, 1000⟩).duration_ms = 1000 / 5) :=
  ⟨by decide, by decide, by decide,
    throttler_construction_divisible 5 1000 (by decide) (by decide) (by decide)⟩

/-- The folding in `images_to_pdf` prepends every page, so the resulting
document is the reverse of the source pages. -/
theorem images_to_pdf_foldl_eq (ps : List PdfPageInfo) (acc : List PdfPageInfo) :
    ps.foldl
      (fun doc src => create_page_at_start doc ⟨src.width, src.height, src.page_as_images⟩)
      acc = ps.reverse ++ acc := by
  induction ps generalizing acc with
  | nil => simp
  | cons p ps ih =>
    simp [List.foldl_cons, create_page_at_start, ih]

/-- C6. `images_to_pdf` creates one page per input image but inserts each new
page at the START of the document
(src/file_converters/pdf_image_converter.rs:66-85, `create_page_at_start`), so
the assembled PDF carries the pages in REVERSED order: on a two-page input with
distinct dimensions, output page 0 has the width and height of source page 1,
contradicting position-wise preservation of the original page order. -/
theorem images_to_pdf_reverses_page_order :
    (∀ info : PdfInfo, images_to_pdf info = info.pages.reverse)
    ∧ images_to_pdf ⟨[⟨100, 200, 1⟩, ⟨300, 400, 2⟩]⟩ =
        [⟨300, 400, 2⟩, ⟨100, 200, 1⟩]
    ∧ (images_to_pdf ⟨[⟨100, 200, 1⟩, ⟨300, 400, 2⟩]⟩).head?.map PdfPageInfo.width =
        some 300 := by
  refine ⟨fun info => ?_, by decide, by decide⟩
  simpa using images_to_pdf_foldl_eq info.pages []

/-- C4, counterexample. With a throttler configured and two supported
redacters on a plain plan, the file's event trace is one throttler update
followed by two back-to-back backend invocations: the gate runs once per file
before `redact_stream` (src/commands/copy_command.rs:370-387), not before each
backend call, so two consecutive backend invocations occur with no throttler
update between them. -/
theorem throttler_gate_per_backend_counterexample :
    redact_upload_throttle_trace true false StreamRedactPlan.none_apply false false false 0 2 =
      [CopyEvent.throttlerUpdate, CopyEvent.backendCall 0, CopyEvent.backendCall 1]
    ∧ no_ungated_consecutive_backend_calls
        (redact_upload_throttle_trace true false StreamRedactPlan.none_apply false false false 0 2) =
      false := by
  decide

/-- The backend loop of `redact_stream` contains no throttler update. -/
theorem redact_stream_events_count_update (plan : StreamRedactPlan)
    (pdfAvail ocrAvail ocrFormatOk : Bool) (numPages numRedacters : Nat) :
    (redact_stream_events plan pdfAvail ocrAvail ocrFormatOk numPages numRedacters).count
      CopyEvent.throttlerUpdate = 0 := by
  rw [List.count_eq_zero]
  intro hmem
  rw [redact_stream_events, List.mem_flatMap] at hmem
  obtain ⟨i, -, hmem⟩ := hmem
  split_ifs at hmem <;> simp at hmem

/-- C4, amended. When a DLP rate limit is configured and the plan's supported
set is non-empty, a single throttler gate — `update(now)` then the awaited
delay — precedes the file's first backend invocation, and it is the only
throttler update in the file's trace: individual backend invocations within
the file are not separately gated. -/
theorem throttler_gate_once_per_file (delayPos : Bool) (plan : StreamRedactPlan)
    (pdfAvail ocrAvail ocrFormatOk : Bool) (numPages numRedacters : Nat)
    (h : numRedacters ≠ 0) :
    (redact_upload_throttle_trace true delayPos plan pdfAvail ocrAvail ocrFormatOk
        numPages numRedacters).head? = some CopyEvent.throttlerUpdate
    ∧ (redact_upload_throttle_trace true delayPos plan pdfAvail ocrAvail ocrFormatOk
        numPages numRedacters).count CopyEvent.throttlerUpdate = 1 := by
  cases delayPos <;>
    simp [redact_upload_throttle_trace, h, List.count_append, List.count_cons,
      redact_stream_events_count_update]

/-- Witness for the amended C4 at two supported redacters. -/
theorem throttler_gate_once_per_file_witness :
    (2 : Nat) ≠ 0 ∧
      ((redact_upload_throttle_trace true false StreamRedactPlan.none_apply false false false
          0 2).head? = some CopyEvent.throttlerUpdate
      ∧ (redact_upload_throttle_trace true false StreamRedactPlan.none_apply false false false
          0 2).count CopyEvent.throttlerUpdate = 1) :=
  ⟨by decide,
    throttler_gate_once_per_file false StreamRedactPlan.none_apply false false false 0 2
      (by decide)⟩

/-- Bumping the skipped accumulator commutes with running the copy loop. -/
theorem command_copy_loop_aux_skip_bump (allow rc : Bool) (ys : List FileProcSpec) :
    ∀ (c s : Nat) (u : List UploadKind),
    command_copy_loop_aux allow rc c (s + 1) u ys =
      (command_copy_loop_aux allow rc c s u ys).map fun r => (r.1, r.2.1 + 1, r.2.2) := by
  induction ys with
  | nil => intro c s u; rfl
  | cons f rest ih =>
    intro c s u
    simp only [command_copy_loop_aux]
    cases hf : transfer_and_redact_file allow rc f with
    | error e => rfl
    | ok r =>
      obtain ⟨tr, up⟩ := r
      cases tr <;> simp only [ih]

/-- Inserting a file that the loop skips without error bumps the skipped
count of the run and changes nothing else. -/
theorem command_copy_loop_aux_insert_skipped (allow rc : Bool) (f : FileProcSpec)
    (hf : transfer_and_redact_file allow rc f = Except.ok (TransferFileResult.Skipped, none))
    (xs : List FileProcSpec) :
    ∀ (ys : List FileProcSpec) (c s : Nat) (u : List UploadKind),
    command_copy_loop_aux allow rc c s u (xs ++ f :: ys) =
      (command_copy_loop_aux allow rc c s u (xs ++ ys)).map fun r => (r.1, r.2.1 + 1, r.2.2) := by
  induction xs with
  | nil =>
    intro ys c s u
    simp only [List.nil_append, command_copy_loop_aux, hf, Option.toList_none, List.append_nil]
    exact command_copy_loop_aux_skip_bump allow rc ys c s u
  | cons g xs ih =>
    intro ys c s u
    simp only [List.cons_append, command_copy_loop_aux]
    cases hg : transfer_and_redact_file allow rc g with
    | error e => rfl
    | ok r =>
      obtain ⟨tr, up⟩ := r
      cases tr <;> exact ih _ _ _ _

/-- C9. A file whose redaction pipeline errors (after a successful download
and a matcher pass, with a non-empty supported set) yields the Skipped result
with no upload (src/commands/copy_command.rs:416-427), and the copy loop over
any surrounding files proceeds exactly as without that file except for one
more skipped count (src/commands/copy_command.rs:125-146). -/
theorem redaction_error_skips_and_continues (allow : Bool) (f : FileProcSpec)
    (xs ys : List FileProcSpec)
    (h1 : f.download_error = none) (h2 : f.matched = true)
    (h3 : f.supported_nonempty = true) (h4 : f.redact_result = Except.error ()) :
    transfer_and_redact_file allow true f = Except.ok (TransferFileResult.Skipped, none)
    ∧ command_copy_loop allow true (xs ++ f :: ys) =
        (command_copy_loop allow true (xs ++ ys)).map fun r => (r.1, r.2.1 + 1, r.2.2) := by
  have hf : transfer_and_redact_file allow true f =
      Except.ok (TransferFileResult.Skipped, none) := by
    simp [transfer_and_redact_file, redact_upload_file, h1, h2, h3, h4]
  exact ⟨hf, command_copy_loop_aux_insert_skipped allow true f hf xs ys 0 0 []⟩

/-- Witness for C9: the failing file sits between two successfully redacted
files. -/
theorem redaction_error_skips_and_continues_witness :
    cex_err_file.download_error = none ∧ cex_err_file.matched = true ∧
      cex_err_file.supported_nonempty = true ∧
      cex_err_file.redact_result = Except.error () ∧
      (transfer_and_redact_file false true cex_err_file =
          Except.ok (TransferFileResult.Skipped, none)
        ∧ command_copy_loop false true ([cex_ok_file] ++ cex_err_file :: [cex_ok_file]) =
            (command_copy_loop false true ([cex_ok_file] ++ [cex_ok_file])).map
              fun r => (r.1, r.2.1 + 1, r.2.2)) :=
  ⟨rfl, rfl, rfl, rfl,
    redaction_error_skips_and_continues false cex_err_file [cex_ok_file] [cex_ok_file]
      rfl rfl rfl rfl⟩

/-- An application/pdf MIME is never an image MIME. -/
theorem pdf_mime_not_image (m : Mime) (h : Redacters.is_mime_pdf m = true) :
    Redacters.is_mime_image m = false := by
  have hm : m = APPLICATION_PDF := of_decide_eq_true h
  subst hm
  rfl

/-- C2, counterexample. With no PDF-to-image converter available, a PDF input
whose sole redacter supports exactly image/png gets the empty supported set
from `create_redact_plan` (the PDF reprobe is guarded by
`self.file_converters.pdf_image_converter.is_some()`,
src/redacters/stream_redacter.rs:84-85), whereas the claim — which reprobes
PDF inputs unconditionally — yields that redacter with
`apply_pdf_to_images = true`. -/
theorem plan_reprobe_availability_counterexample :
    create_redact_plan false false [png_only_redacter] pdf_file_ref ≠
      claim_plan_c2 false [png_only_redacter] pdf_file_ref := by
  have h1 : (create_redact_plan false false [png_only_redacter] pdf_file_ref).2 = [] := rfl
  have h2 : (claim_plan_c2 false [png_only_redacter] pdf_file_ref).2 =
      [png_only_redacter] := rfl
  intro h
  rw [h, h2] at h1
  exact List.cons_ne_nil _ _ h1

/-- C2, amended. Plan construction first probes every redacter on the
unmodified file ref; a non-empty natural set is returned as-is with no
conversion flags. Only with an empty natural set does it reprobe by MIME:
table inputs as text/plain (setting `treat_table_as_text` on a hit); PDF
inputs, PROVIDED the PDF-to-image converter is available, as image/png
(setting `apply_pdf_to_images` on a hit) and — only if that yields nothing and
an OCR engine exists — as text/plain (setting both flags); image inputs,
PROVIDED an OCR engine is available, as text/plain (setting `apply_ocr`).
`create_redact_plan` coincides with this rule on every input. -/
theorem plan_reprobe_with_availability_guards (pdfAvail ocrAvail : Bool)
    (redacters : List Redacter) (file_ref : FileSystemRef) :
    create_redact_plan pdfAvail ocrAvail redacters file_ref =
      amended_plan_c2 pdfAvail ocrAvail redacters file_ref := by
  unfold create_redact_plan amended_plan_c2
  by_cases hn : (List.filter (fun r => supports r file_ref) redacters).isEmpty = true
  · cases hmedia : file_ref.media_type with
    | none => simp [hn, hmedia]
    | some m =>
      by_cases ht : Redacters.is_mime_table m = true
      · simp [hn, hmedia, ht]
      · by_cases hp : Redacters.is_mime_pdf m = true
        · have himg : Redacters.is_mime_image m = false := pdf_mime_not_image m hp
          cases pdfAvail <;> simp [hn, hmedia, ht, hp, himg]
        · by_cases hi : Redacters.is_mime_image m = true
          · cases ocrAvail <;> simp [hn, hmedia, ht, hp, hi]
          · simp [hn, hmedia, ht, hp, hi]
  · simp [hn]

/-- Painting one pixel leaves the dimensions unchanged. -/
theorem put_pixel_width (img : RgbImage) (x y c : Nat) :
    (put_pixel img x y c).width = img.width :=
  rfl

/-- Painting one pixel leaves the height unchanged. -/
theorem put_pixel_height (img : RgbImage) (x y c : Nat) :
    (put_pixel img x y c).height = img.height :=
  rfl

/-- The pixel loop of one rectangle leaves the width unchanged. -/
theorem fold_put_width (ps : List (Nat × Nat)) (im : RgbImage) :
    (ps.foldl (fun im2 p => put_pixel im2 p.1 p.2 0) im).width = im.width := by
  induction ps generalizing im with
  | nil => rfl
  | cons p ps ih => rw [List.foldl_cons, ih, put_pixel_width]

/-- The pixel loop of one rectangle leaves the height unchanged. -/
theorem fold_put_height (ps : List (Nat × Nat)) (im : RgbImage) :
    (ps.foldl (fun im2 p => put_pixel im2 p.1 p.2 0) im).height = im.height := by
  induction ps generalizing im with
  | nil => rfl
  | cons p ps ih => rw [List.foldl_cons, ih, put_pixel_height]

/-- Painting one rectangle leaves the width unchanged. -/
theorem paint_rect_width (im : RgbImage) (r : PixelRect) :
    (paint_rect im r).width = im.width :=
  fold_put_width _ _

/-- Painting one rectangle leaves the height unchanged. -/
theorem paint_rect_height (im : RgbImage) (r : PixelRect) :
    (paint_rect im r).height = im.height :=
  fold_put_height _ _

/-- The coordinate redactor leaves the width unchanged. -/
theorem redact_rgba_width (img : RgbImage) (rects : List PixelRect) :
    (redact_rgba_image_at_coords img rects).width = img.width := by
  unfold redact_rgba_image_at_coords
  induction rects generalizing img with
  | nil => rfl
  | cons r rects ih => rw [List.foldl_cons, ih, paint_rect_width]

/-- The coordinate redactor leaves the height unchanged. -/
theorem redact_rgba_height (img : RgbImage) (rects : List PixelRect) :
    (redact_rgba_image_at_coords img rects).height = img.height := by
  unfold redact_rgba_image_at_coords
  induction rects generalizing img with
  | nil => rfl
  | cons r rects ih => rw [List.foldl_cons, ih, paint_rect_height]

/-- A pixel changed by the loop of one rectangle is one of its targets. -/
theorem fold_put_changed (ps : List (Nat × Nat)) (im : RgbImage) (q : Nat × Nat)
    (h : (ps.foldl (fun im2 p => put_pixel im2 p.1 p.2 0) im).data q ≠ im.data q) :
    q ∈ ps := by
  induction ps generalizing im with
  | nil => exact absurd rfl h
  | cons p ps ih =>
    rw [List.foldl_cons] at h
    by_cases hq : q ∈ ps
    · exact List.mem_cons_of_mem _ hq
    · have heq : (ps.foldl (fun im2 p => put_pixel im2 p.1 p.2 0)
          (put_pixel im p.1 p.2 0)).data q = (put_pixel im p.1 p.2 0).data q := by
        by_contra hne
        exact hq (ih _ hne)
      rw [heq] at h
      have hpq : q = (p.1, p.2) := by
        by_contra hne
        have : (put_pixel im p.1 p.2 0).data q = im.data q := by
          simp [put_pixel, hne]
        exact h this
      simp [hpq]

/-- A pixel changed by the coordinate redactor is the target of some
rectangle. -/
theorem foldl_paint_changed (rects : List PixelRect) (img : RgbImage) (q : Nat × Nat)
    (h : (rects.foldl paint_rect img).data q ≠ img.data q) :
    ∃ r ∈ rects, q ∈ paint_targets img.width img.height r := by
  induction rects generalizing img with
  | nil => exact absurd rfl h
  | cons r rects ih =>
    rw [List.foldl_cons] at h
    by_cases h1 : (rects.foldl paint_rect (paint_rect img r)).data q =
        (paint_rect img r).data q
    · rw [h1] at h
      exact ⟨r, List.mem_cons_self r rects, fold_put_changed _ _ _ h⟩
    · obtain ⟨r2, hr2, hq⟩ := ih (paint_rect img r) h1
      rw [paint_rect_width, paint_rect_height] at hq
      exact ⟨r2, List.mem_cons_of_mem r hr2, hq⟩

/-- Every painted target is clamped inside the image bounds. -/
theorem paint_targets_mem_bounds (w h : Nat) (r : PixelRect) (q : Nat × Nat)
    (hw : 0 < w) (hh : 0 < h) (hq : q ∈ paint_targets w h r) :
    q.1 < w ∧ q.2 < h := by
  simp only [paint_targets, List.mem_flatMap, List.mem_map] at hq
  obtain ⟨x, -, y, -, rfl⟩ := hq
  constructor <;> simp <;> omega

/-- C8. Whatever pixel ranges the coordinate rectangles expand to (covering
every coordinate value and approximation factor), a pixel the coordinate
redactor changes lies inside the image bounds, because every write is clamped
by `x.min(width - 1)` and `y.min(height - 1)`
(src/redacters/simple_image_redacter.rs:25-43). -/
theorem coord_redactor_paints_within_bounds (img : RgbImage)
    (pii_coords : List PixelRect) (x y : Nat)
    (hw : 0 < img.width) (hh : 0 < img.height)
    (hchange : (redact_rgba_image_at_coords img pii_coords).data (x, y) ≠
      img.data (x, y)) :
    x < img.width ∧ y < img.height := by
  obtain ⟨r, -, hq⟩ := foldl_paint_changed pii_coords img (x, y) hchange
  exact paint_targets_mem_bounds _ _ r (x, y) hw hh hq

/-- Witness for C8 on a one-by-one image whose single pixel gets painted. -/
theorem coord_redactor_paints_within_bounds_witness :
    (0 < cex_img.width ∧ 0 < cex_img.height ∧
      (redact_rgba_image_at_coords cex_img cex_rects).data (0, 0) ≠ cex_img.data (0, 0))
    ∧ (0 < cex_img.width ∧ 0 < cex_img.height) :=
  ⟨⟨by decide, by decide, by decide⟩,
    coord_redactor_paints_within_bounds cex_img cex_rects 0 0 (by decide) (by decide)
      (by decide)⟩

/-- C10. In coordinate mode the generative-LLM image redactor returns an item
with the input's file_ref, the unchanged MIME and the Image variant, whose
data is the coordinate-redacted resized image
(src/redacters/open_ai_llm.rs:190-313); since the resize fits within the
1024-by-1024 box, the output dimensions differ from the input's whenever the
input exceeds that box. -/
theorem llm_image_coord_mode_frame (resize : RgbImage → RgbImage)
    (llm_coords : List PixelRect) (fr : FileSystemRef) (mime : Mime) (img : RgbImage)
    (hfmt : image_format_supported mime = true)
    (hw : (resize img).width ≤ 1024) (hh : (resize img).height ≤ 1024) :
    redact_image_file resize llm_coords ⟨RedacterDataItemContent.Image mime img, fr⟩ =
      Except.ok ⟨RedacterDataItemContent.Image mime
        (redact_rgba_image_at_coords (resize img) llm_coords), fr⟩
    ∧ (redact_rgba_image_at_coords (resize img) llm_coords).width = (resize img).width
    ∧ (redact_rgba_image_at_coords (resize img) llm_coords).height = (resize img).height
    ∧ ((img.width ≤ 1024 ∧ img.height ≤ 1024) ∨
        ¬((redact_rgba_image_at_coords (resize img) llm_coords).width = img.width ∧
          (redact_rgba_image_at_coords (resize img) llm_coords).height = img.height)) := by
  refine ⟨?_, redact_rgba_width _ _, redact_rgba_height _ _, ?_⟩
  · simp [redact_image_file, redact_image_at_coords, hfmt]
  · by_cases hb : img.width ≤ 1024 ∧ img.height ≤ 1024
    · exact Or.inl hb
    · refine Or.inr fun he => ?_
      obtain ⟨e1, e2⟩ := he
      rw [redact_rgba_width] at e1
      rw [redact_rgba_height] at e2
      push_neg at hb
      omega

/-- Witness for C10 on a 2048-by-100 PNG. -/
theorem llm_image_coord_mode_frame_witness :
    (image_format_supported IMAGE_PNG = true ∧
      (cex_resize cex_big_img).width ≤ 1024 ∧ (cex_resize cex_big_img).height ≤ 1024)
    ∧ (redact_image_file cex_resize [] ⟨RedacterDataItemContent.Image IMAGE_PNG cex_big_img,
          cex_png_ref⟩ =
        Except.ok ⟨RedacterDataItemContent.Image IMAGE_PNG
          (redact_rgba_image_at_coords (cex_resize cex_big_img) []), cex_png_ref⟩
      ∧ (redact_rgba_image_at_coords (cex_resize cex_big_img) []).width =
          (cex_resize cex_big_img).width
      ∧ (redact_rgba_image_at_coords (cex_resize cex_big_img) []).height =
          (cex_resize cex_big_img).height
      ∧ ((cex_big_img.width ≤ 1024 ∧ cex_big_img.height ≤ 1024) ∨
          ¬((redact_rgba_image_at_coords (cex_resize cex_big_img) []).width =
              cex_big_img.width ∧
            (redact_rgba_image_at_coords (cex_resize cex_big_img) []).height =
              cex_big_img.height))) :=
  ⟨⟨rfl, by decide, by decide⟩,
    llm_image_coord_mode_frame cex_resize [] cex_png_ref IMAGE_PNG cex_big_img rfl
      (by decide) (by decide)⟩

/-- Masking one valid span preserves the text length. -/
theorem apply_analyzed_item_length (acc : List Char) (it : MsPresidioAnalyzedItem)
    (h : item_valid acc.length it = true) :
    (apply_analyzed_item acc it).length = acc.length := by
  unfold item_valid at h
  unfold apply_analyzed_item
  cases hs : it.start <;> cases he : it.end_ <;>
    simp only [hs, he, Bool.and_eq_true, decide_eq_true_eq] at h ⊢ <;>
    simp [List.length_append, List.length_take, List.length_drop,
      List.length_replicate] <;>
    omega

/-- Masking one valid span turns exactly the positions of the span into `X`
and leaves every other position unchanged. -/
theorem apply_analyzed_item_getElem (acc : List Char) (it : MsPresidioAnalyzedItem)
    (i : Nat) (h : item_valid acc.length it = true) :
    (apply_analyzed_item acc it)[i]? =
      if masked_by acc.length it i then some 'X' else acc[i]? := by
  unfold item_valid at h
  unfold apply_analyzed_item masked_by
  cases hs : it.start <;> cases he : it.end_ <;>
    simp only [hs, he, Bool.and_eq_true, decide_eq_true_eq] at h ⊢
  case none.none =>
    simp
  case none.some e =>
    by_cases hi : i < e
    · simp [List.getElem?_append, List.length_replicate, List.getElem?_replicate, hi]
    · have hge : (List.replicate e 'X').length ≤ i := by
        rw [List.length_replicate]
        omega
      rw [List.getElem?_append_right hge, List.length_replicate, List.getElem?_drop]
      have hadd : e + (i - e) = i := by omega
      rw [hadd]
      simp [hi]
  case some.none s =>
    by_cases hi : i < s
    · have hmask : ¬(s ≤ i ∧ i < acc.length) := by omega
      simp [List.getElem?_append, List.length_take, List.getElem?_take,
        Nat.min_eq_left h, hi, hmask]
    · have hge : (List.take s acc).length ≤ i := by
        rw [List.length_take, Nat.min_eq_left h]
        omega
      rw [List.getElem?_append_right hge, List.length_take, Nat.min_eq_left h]
      by_cases hl : i < acc.length
      · have hrep : i - s < acc.length - s := by omega
        have hmask : s ≤ i ∧ i < acc.length := by omega
        simp [List.getElem?_replicate, hrep, hmask]
      · have hrep : ¬(i - s < acc.length - s) := by omega
        have hmask : ¬(s ≤ i ∧ i < acc.length) := by omega
        have hnone : acc.length ≤ i := by omega
        simp [List.getElem?_replicate, hrep, hmask, List.getElem?_eq_none hnone]
  case some.some s e =>
    obtain ⟨hse, hel⟩ := h
    have hsl : s ≤ acc.length := by omega
    rw [List.append_assoc]
    by_cases hi : i < s
    · have hmask : ¬(s ≤ i ∧ i < e) := by omega
      simp [List.getElem?_append, List.length_take, List.getElem?_take,
        Nat.min_eq_left hsl, hi, hmask]
    · have hge : (List.take s acc).length ≤ i := by
        rw [List.length_take, Nat.min_eq_left hsl]
        omega
      rw [List.getElem?_append_right hge, List.length_take, Nat.min_eq_left hsl]
      by_cases hie : i < e
      · have hrep : i - s < e - s := by omega
        have hmask : s ≤ i ∧ i < e := by omega
        simp [List.getElem?_append, List.length_replicate, List.getElem?_replicate,
          hrep, hmask]
      · have hge2 : (List.replicate (e - s) 'X').length ≤ i - s := by
          rw [List.length_replicate]
          omega
        rw [List.getElem?_append_right hge2, List.length_replicate, List.getElem?_drop]
        have hadd : e + (i - s - (e - s)) = i := by omega
        rw [hadd]
        have hmask : ¬(s ≤ i ∧ i < e) := by omega
        simp [hmask]

/-- The masking fold over valid spans preserves the text length. -/
theorem foldl_apply_length (items : List MsPresidioAnalyzedItem) (acc : List Char)
    (h : ∀ it ∈ items, item_valid acc.length it = true) :
    (items.foldl apply_analyzed_item acc).length = acc.length := by
  induction items generalizing acc with
  | nil => rfl
  | cons it items ih =>
    rw [List.foldl_cons]
    have hlen := apply_analyzed_item_length acc it (h it (List.mem_cons_self it items))
    have hrest : ∀ it2 ∈ items, item_valid (apply_analyzed_item acc it).length it2 = true := by
      intro it2 hit2
      rw [hlen]
      exact h it2 (List.mem_cons_of_mem _ hit2)
    rw [ih _ hrest, hlen]

/-- The masking fold over valid spans writes `X` at exactly the positions
covered by some span and keeps every other position of the text. -/
theorem foldl_apply_getElem (items : List MsPresidioAnalyzedItem) (acc : List Char)
    (i : Nat) (h : ∀ it ∈ items, item_valid acc.length it = true) :
    (items.foldl apply_analyzed_item acc)[i]? =
      if items.any (fun it => masked_by acc.length it i) then some 'X' else acc[i]? := by
  induction items generalizing acc with
  | nil => simp
  | cons it items ih =>
    rw [List.foldl_cons, List.any_cons]
    have h1 := h it (List.mem_cons_self it items)
    have hlen := apply_analyzed_item_length acc it h1
    have hstep := apply_analyzed_item_getElem acc it i h1
    have hrest : ∀ it2 ∈ items, item_valid (apply_analyzed_item acc it).length it2 = true := by
      intro it2 hit2
      rw [hlen]
      exact h it2 (List.mem_cons_of_mem _ hit2)
    rw [ih _ hrest, hlen, hstep]
    by_cases hm : masked_by acc.length it i = true <;>
      by_cases ha : items.any (fun it2 => masked_by acc.length it2 i) = true <;>
      simp [hm, ha]

/-- Permuted lists agree on `any`. -/
theorem perm_any_eq {α : Type} (l1 l2 : List α) (f : α → Bool) (h : l1.Perm l2) :
    l1.any f = l2.any f := by
  cases h1 : l1.any f <;> cases h2 : l2.any f
  · rfl
  · rw [List.any_eq_true] at h2
    obtain ⟨x, hx, hfx⟩ := h2
    have : l1.any f = true := List.any_eq_true.mpr ⟨x, h.mem_iff.mpr hx, hfx⟩
    rw [h1] at this
    cases this
  · rw [List.any_eq_true] at h1
    obtain ⟨x, hx, hfx⟩ := h1
    have : l2.any f = true := List.any_eq_true.mpr ⟨x, h.mem_iff.mp hx, hfx⟩
    rw [h2] at this
    cases this
  · rfl

/-- C3. For text and entity spans deemed valid by the Rust slicing bounds,
the engine's masking fold (src/redacters/ms_presidio.rs:108-125) replaces
exactly the positions of the deny-list-filtered spans with `X`, preserves the
text length, and applying the spans in any order yields the same string. -/
theorem presidio_masking_order_independent (t : List Char)
    (items items2 : List MsPresidioAnalyzedItem) (i : Nat) (d : Char)
    (hv : items.all (fun it => item_valid t.length it) = true)
    (hp : items.Perm items2) :
    redact_text_file t items = redact_text_file t items2
    ∧ (redact_text_file t items).length = t.length
    ∧ (redact_text_file t items).getD i d =
        (if (items.filter fun it => !DISALLOW_ENTITY_TYPES.contains it.entity_type).any
            (fun it => masked_by t.length it i) then 'X' else t.getD i d) := by
  have hv2 : ∀ it ∈ items, item_valid t.length it = true := List.all_eq_true.mp hv
  have hvf : ∀ it ∈ items.filter
      (fun it => !DISALLOW_ENTITY_TYPES.contains it.entity_type),
      item_valid t.length it = true :=
    fun it hit => hv2 it (List.mem_of_mem_filter hit)
  have hpf := hp.filter fun it => !DISALLOW_ENTITY_TYPES.contains it.entity_type
  have hvf2 : ∀ it ∈ items2.filter
      (fun it => !DISALLOW_ENTITY_TYPES.contains it.entity_type),
      item_valid t.length it = true :=
    fun it hit => hvf it (hpf.mem_iff.mpr hit)
  refine ⟨?_, foldl_apply_length _ _ hvf, ?_⟩
  · apply List.ext_getElem?
    intro n
    rw [redact_text_file, redact_text_file, foldl_apply_getElem _ _ _ hvf,
      foldl_apply_getElem _ _ _ hvf2,
      perm_any_eq _ _ (fun it => masked_by t.length it n) hpf]
  · rw [List.getD_eq_getElem?_getD, redact_text_file, foldl_apply_getElem _ _ _ hvf,
      List.getD_eq_getElem?_getD]
    by_cases hm : (items.filter
        (fun it => !DISALLOW_ENTITY_TYPES.contains it.entity_type)).any
        (fun it => masked_by t.length it i) = true
    · rw [if_pos hm, if_pos hm]
      rfl
    · rw [if_neg hm, if_neg hm]

/-- Witness for C3: two disjoint spans applied in both orders over a
six-character text. -/
theorem presidio_masking_order_independent_witness :
    ([(⟨"A", some 0, some 2⟩ : MsPresidioAnalyzedItem), ⟨"B", some 3, some 5⟩].all
        (fun it => item_valid "abcdef".toList.length it) = true)
    ∧ ([(⟨"A", some 0, some 2⟩ : MsPresidioAnalyzedItem), ⟨"B", some 3, some 5⟩].Perm
        [⟨"B", some 3, some 5⟩, ⟨"A", some 0, some 2⟩])
    ∧ (redact_text_file "abcdef".toList
          [⟨"A", some 0, some 2⟩, ⟨"B", some 3, some 5⟩] =
        redact_text_file "abcdef".toList
          [⟨"B", some 3, some 5⟩, ⟨"A", some 0, some 2⟩]
      ∧ (redact_text_file "abcdef".toList
          [⟨"A", some 0, some 2⟩, ⟨"B", some 3, some 5⟩]).length =
          "abcdef".toList.length
      ∧ (redact_text_file "abcdef".toList
          [⟨"A", some 0, some 2⟩, ⟨"B", some 3, some 5⟩]).getD 0 'Z' =
          (if ([(⟨"A", some 0, some 2⟩ : MsPresidioAnalyzedItem),
                ⟨"B", some 3, some 5⟩].filter
              fun it => !DISALLOW_ENTITY_TYPES.contains it.entity_type).any
              (fun it => masked_by "abcdef".toList.length it 0) then 'X'
            else "abcdef".toList.getD 0 'Z')) :=
  ⟨by decide, by decide,
    presidio_masking_order_independent "abcdef".toList
      [⟨"A", some 0, some 2⟩, ⟨"B", some 3, some 5⟩]
      [⟨"B", some 3, some 5⟩, ⟨"A", some 0, some 2⟩] 0 'Z' (by decide) (by decide)⟩

/-- Without a cap, the listing loop collects every accepted ref and counts
every rejected ref exactly once. -/
theorem list_files_go_none (fm : Option FileMatcher) :
    ∀ (entries : List FsTree) (files : List FileSystemRef) (skipped : Nat),
    list_files_go fm none entries files skipped =
      (files ++ accepted_refs fm entries, skipped + rejected_count fm entries) := by
  suffices h : ∀ (n : Nat) (entries : List FsTree), sizeOf entries = n →
      ∀ (files : List FileSystemRef) (skipped : Nat),
      list_files_go fm none entries files skipped =
        (files ++ accepted_refs fm entries, skipped + rejected_count fm entries) from
    fun entries => h (sizeOf entries) entries rfl
  intro n
  induction n using Nat.strong_induction_on with
  | _ n ih =>
    intro entries hsize files skipped
    match entries with
    | [] =>
      simp [list_files_go, accepted_refs, rejected_count]
    | FsTree.file ref :: rest =>
      have hspec := List.cons.sizeOf_spec (FsTree.file ref) rest
      have hrest : sizeOf rest < n := by omega
      rw [list_files_go]
      by_cases hm : matcher_ok fm ref = true <;>
        simp only [hm, Bool.false_eq_true, if_true, if_false, breakCond] <;>
        rw [ih (sizeOf rest) hrest rest rfl] <;>
        simp [accepted_refs, rejected_count, hm] <;>
        omega
    | FsTree.dir entries2 :: rest =>
      have hspec := List.cons.sizeOf_spec (FsTree.dir entries2) rest
      have hspec2 := FsTree.dir.sizeOf_spec entries2
      have hrest : sizeOf rest < n := by omega
      have hentries : sizeOf entries2 < n := by omega
      rw [list_files_go]
      have hmap : Option.map (fun v => v - files.length) (none : Option Nat) = none := rfl
      rw [hmap]
      rw [if_neg (by simp : ¬((none : Option Nat) = some 0))]
      simp only [breakCond, Bool.false_eq_true, if_false]
      rw [ih (sizeOf entries2) hentries entries2 rfl [] 0]
      rw [ih (sizeOf rest) hrest rest rfl]
      simp [accepted_refs, rejected_count]
      omega

/-- With a cap, the files collected by the listing loop are exactly the next
`l - files.length` accepted refs in walk order: the loop fills the cap and
stops descending. -/
theorem list_files_go_some (fm : Option FileMatcher) :
    ∀ (entries : List FsTree) (files : List FileSystemRef) (skipped : Nat) (l : Nat),
    files.length < l →
    (list_files_go fm (some l) entries files skipped).1 =
      files ++ (accepted_refs fm entries).take (l - files.length) := by
  suffices h : ∀ (n : Nat) (entries : List FsTree), sizeOf entries = n →
      ∀ (files : List FileSystemRef) (skipped : Nat) (l : Nat), files.length < l →
      (list_files_go fm (some l) entries files skipped).1 =
        files ++ (accepted_refs fm entries).take (l - files.length) from
    fun entries files skipped l hl => h (sizeOf entries) entries rfl files skipped l hl
  intro n
  induction n using Nat.strong_induction_on with
  | _ n ih =>
    intro entries hsize files skipped l hl
    match entries with
    | [] =>
      simp [list_files_go, accepted_refs]
    | FsTree.file ref :: rest =>
      have hspec := List.cons.sizeOf_spec (FsTree.file ref) rest
      have hrest : sizeOf rest < n := by omega
      rw [list_files_go]
      by_cases hm : matcher_ok fm ref = true
      · simp only [hm, if_true]
        have hlen : (files ++ [ref]).length = files.length + 1 := by simp
        by_cases hb : l ≤ files.length + 1
        · have hbc : breakCond (some l) (files ++ [ref]) = true := by
            simp only [breakCond, hlen, ge_iff_le, decide_eq_true_eq]
            omega
          rw [if_pos hbc]
          have hl1 : l - files.length = 1 := by omega
          simp [accepted_refs, hm, hl1]
        · have hbc : ¬(breakCond (some l) (files ++ [ref]) = true) := by
            simp only [breakCond, hlen, ge_iff_le, decide_eq_true_eq]
            omega
          rw [if_neg hbc]
          rw [ih (sizeOf rest) hrest rest rfl (files ++ [ref]) skipped l
            (by simp [hlen]; omega)]
          have hsucc : l - files.length = (l - (files.length + 1)) + 1 := by omega
          simp [accepted_refs, hm, hlen, hsucc, List.take_succ_cons]
      · simp only [hm, Bool.false_eq_true, if_false]
        have hbc : ¬(breakCond (some l) files = true) := by
          simp only [breakCond, ge_iff_le, decide_eq_true_eq]
          omega
        rw [if_neg hbc]
        rw [ih (sizeOf rest) hrest rest rfl files (skipped + 1) l hl]
        simp [accepted_refs, hm]
    | FsTree.dir entries2 :: rest =>
      have hspec := List.cons.sizeOf_spec (FsTree.dir entries2) rest
      have hspec2 := FsTree.dir.sizeOf_spec entries2
      have hrest : sizeOf rest < n := by omega
      have hentries : sizeOf entries2 < n := by omega
      rw [list_files_go]
      have hmap : Option.map (fun v => v - files.length) (some l) =
          some (l - files.length) := rfl
      rw [hmap]
      have hsub0 : ¬((some (l - files.length) : Option Nat) = some 0) := by
        simp only [Option.some.injEq]
        omega
      rw [if_neg hsub0]
      have hsub1 : (list_files_go fm (some (l - files.length)) entries2 [] 0).1 =
          (accepted_refs fm entries2).take (l - files.length) := by
        have hcall := ih (sizeOf entries2) hentries entries2 rfl [] 0 (l - files.length)
          (by simp; omega)
        simpa using hcall
      rw [hsub1]
      have hlen2 : (files ++ (accepted_refs fm entries2).take (l - files.length)).length =
          files.length + min (l - files.length) (accepted_refs fm entries2).length := by
        simp [List.length_append, List.length_take]
      by_cases hb : l ≤ files.length +
          min (l - files.length) (accepted_refs fm entries2).length
      · have hbc : breakCond (some l)
            (files ++ (accepted_refs fm entries2).take (l - files.length)) = true := by
          simp only [breakCond, hlen2, ge_iff_le, decide_eq_true_eq]
          omega
        rw [if_pos hbc]
        have h0 : l - files.length - (accepted_refs fm entries2).length = 0 := by omega
        simp [accepted_refs, List.take_append_eq_append_take, h0]
      · have hbc : ¬(breakCond (some l)
            (files ++ (accepted_refs fm entries2).take (l - files.length)) = true) := by
          simp only [breakCond, hlen2, ge_iff_le, decide_eq_true_eq]
          omega
        rw [if_neg hbc]
        have hAlen : (accepted_refs fm entries2).length < l - files.length := by omega
        have htake : (accepted_refs fm entries2).take (l - files.length) =
            accepted_refs fm entries2 :=
          List.take_of_length_le (by omega)
        rw [htake]
        rw [ih (sizeOf rest) hrest rest rfl (files ++ accepted_refs fm entries2) _ l
          (by simp [List.length_append]; omega)]
        have harith : l - (files ++ accepted_refs fm entries2).length =
            l - files.length - (accepted_refs fm entries2).length := by
          simp [List.length_append]
          omega
        rw [harith]
        simp [accepted_refs, List.take_append_eq_append_take, htake, List.append_assoc]

/-- C7. Recursive listing under a cap `M` returns exactly the first `M`
accepted refs in walk order — hence at most `M` files, with the recursion
stopping once the cap is filled — and, run without a cap, it counts exactly
one skip per matcher-rejected ref and collects every accepted ref
(src/file_systems/local.rs:35-90). -/
theorem listing_cap_and_skip_count (fm : Option FileMatcher) (entries : List FsTree)
    (M : Nat) :
    (list_files_recursive fm (some M) entries).files =
      (accepted_refs fm entries).take M
    ∧ (list_files_recursive fm (some M) entries).files.length ≤ M
    ∧ (list_files_recursive fm none entries).files = accepted_refs fm entries
    ∧ (list_files_recursive fm none entries).skipped = rejected_count fm entries := by
  have hnone : list_files_recursive fm none entries =
      ⟨accepted_refs fm entries, rejected_count fm entries⟩ := by
    rw [list_files_recursive, if_neg (by simp : ¬((none : Option Nat) = some 0))]
    simp [list_files_go_none fm entries [] 0]
  have hsome : (list_files_recursive fm (some M) entries).files =
      (accepted_refs fm entries).take M := by
    rw [list_files_recursive]
    by_cases hM : M = 0
    · rw [if_pos (by simp [hM])]
      simp [hM]
    · rw [if_neg (by simp [hM])]
      have hM0 : ([] : List FileSystemRef).length < M := by
        simp
        omega
      have := list_files_go_some fm entries [] 0 M hM0
      simpa using this
  refine ⟨hsome, ?_, by rw [hnone], by rw [hnone]⟩
  rw [hsome, List.length_take]
  omega

end RedacterRs
